import Mathlib

/-!
Shallow embedding of the snake-game engine from `src/main.rs`.

Coordinates are Rust `u16` values, modelled as `Nat` together with the
saturating arithmetic the source uses (`saturating_sub` is `Nat` truncated
subtraction; `saturating_add` caps at 65535).  The `score` and `level`
fields are Rust `u32` counters that only ever move by small increments
bounded by the board area (at most 65535 x 65535 cells), far below 2^32,
so they are modelled as `Nat`.  `ThreadRng` is modelled as an injected
stream of naturals: each `gen_range(0..n)` call consumes one stream value
`v` and yields `v % n`.
-/

/-- Largest `u16` value; `saturating_add` clamps here. -/
def U16_MAX : Nat := 65535

/-- Rust `u16::saturating_sub` (Nat subtraction already truncates at 0). -/
def satSub (a b : Nat) : Nat := a - b

/-- Rust `u16::saturating_add`, clamped at `U16_MAX`. -/
def satAdd (a b : Nat) : Nat := min (a + b) U16_MAX

/-- Represents a position (x, y) on the board. -/
structure Point where
  x : Nat
  y : Nat
deriving DecidableEq, Repr

/-- Snake movement directions. -/
inductive DirectionEnum where
  | Up
  | Down
  | Left
  | Right
deriving DecidableEq, Repr

/-- The direction pointing exactly opposite to the given one. -/
def DirectionEnum.opposite : DirectionEnum → DirectionEnum
  | .Up => .Down
  | .Down => .Up
  | .Left => .Right
  | .Right => .Left

/-- Model of `rand::rngs::ThreadRng`: a stream of naturals plus a cursor.
`gen_range(0..n)` reads `seq idx % n` and advances the cursor. -/
structure Rng where
  seq : Nat → Nat
  idx : Nat

/-- Main game state (`struct Game` in the source). -/
structure Game where
  snake : List Point
  dir : DirectionEnum
  next_dir : DirectionEnum
  apple : Point
  rng : Rng
  score : Nat
  width : Nat
  height : Nat
  game_over : Bool
  level : Nat
  base_tick_ms : Nat

/-- The occupancy test `self.snake.iter().any(|s| s.x == x && s.y == y)`
used by both `place_apple` and `step`. -/
def snakeHits (snake : List Point) (x y : Nat) : Bool :=
  snake.any (fun s => s.x == x && s.y == y)

/-- The retry loop of `Game::place_apple`, with the retry budget as fuel.
Each iteration draws `x = gen_range(0..width)` and `y = gen_range(0..height)`
(consuming two stream values); when the fuel runs out the apple falls back
to the fixed cell (1, 1). -/
def placeAppleLoop : Nat → Game → Game
  | 0, g => { g with apple := ⟨1, 1⟩ }
  | n + 1, g =>
    let x := g.rng.seq g.rng.idx % g.width
    let y := g.rng.seq (g.rng.idx + 1) % g.height
    let r2 : Rng := ⟨g.rng.seq, g.rng.idx + 2⟩
    if snakeHits g.snake x y then
      placeAppleLoop n { g with rng := r2 }
    else
      { g with apple := ⟨x, y⟩, rng := r2 }

/-- Function `Game::place_apple`: up to 1000 random draws, rejecting occupied cells. -/
def Game.place_apple (g : Game) : Game := placeAppleLoop 1000 g

/-- The reverse-pair test from `Game::set_direction`. -/
def isReverse : DirectionEnum → DirectionEnum → Bool
  | .Up, .Down => true
  | .Down, .Up => true
  | .Left, .Right => true
  | .Right, .Left => true
  | _, _ => false

/-- Function `Game::set_direction`: changes snake direction (no reverse allowed). -/
def Game.set_direction (g : Game) (d : DirectionEnum) : Game :=
  if isReverse g.dir d then g else { g with next_dir := d }

/-- The head-movement computation of `Game::step` (the `match self.dir` block),
using saturating `u16` arithmetic. -/
def movePoint (p : Point) : DirectionEnum → Point
  | .Up => ⟨p.x, satSub p.y 1⟩
  | .Down => ⟨p.x, satAdd p.y 1⟩
  | .Left => ⟨satSub p.x 1, p.y⟩
  | .Right => ⟨satAdd p.x 1, p.y⟩

/-- Body of `Game::step` after the terminal-state early return and the
`self.snake[0]` head read. -/
def stepMove (g : Game) (head : Point) : Game :=
  let g1 : Game := { g with dir := g.next_dir }
  let new_head := movePoint head g1.dir
  if g1.width ≤ new_head.x ∨ g1.height ≤ new_head.y then
    { g1 with game_over := true }
  else if snakeHits g1.snake new_head.x new_head.y then
    { g1 with game_over := true }
  else
    let g2 : Game := { g1 with snake := new_head :: g1.snake }
    if new_head.x = g2.apple.x ∧ new_head.y = g2.apple.y then
      let g3 : Game := { g2 with score := g2.score + 1 }
      let g4 : Game :=
        if g3.score % 5 = 0 then { g3 with level := 1 + g3.score / 5 } else g3
      g4.place_apple
    else
      { g2 with snake := g2.snake.dropLast }

/-- Function `Game::step`: game tick — moves snake, checks collisions, updates score.
`self.snake[0]` would panic on an empty snake; the snake is nonempty in
every reachable state, and the empty case is modelled as a no-op. -/
def Game.step (g : Game) : Game :=
  if g.game_over then g
  else
    match g.snake with
    | [] => g
    | head :: _ => stepMove g head

/-- Function `Game::new`: initializes a new game session from the terminal area. -/
def Game.new (areaWidth areaHeight : Nat) (rng : Rng) : Game :=
  let width := max (satSub areaWidth 2) 10
  let height := max (satSub areaHeight 4) 5
  let mid_x := width / 2
  let mid_y := height / 2
  let snake : List Point :=
    [⟨mid_x, mid_y⟩, ⟨satSub mid_x 1, mid_y⟩, ⟨satSub mid_x 2, mid_y⟩]
  let g : Game :=
    { snake := snake
      dir := .Right
      next_dir := .Right
      apple := ⟨0, 0⟩
      rng := rng
      score := 0
      width := width
      height := height
      game_over := false
      level := 1
      base_tick_ms := 160 }
  g.place_apple

/-- Function `Game::tick_duration` in milliseconds: controls snake speed. -/
def Game.tick_duration (g : Game) : Nat :=
  let reduce := (g.level - 1) * 10
  max (g.base_tick_ms - reduce) 40

/-- Game sessions reachable from `Game::new` by `step` and `set_direction`. -/
inductive Reachable : Game → Prop where
  | base (aw ah : Nat) (rng : Rng) : Reachable (Game.new aw ah rng)
  | step {g : Game} : Reachable g → Reachable g.step
  | set_dir {g : Game} (d : DirectionEnum) : Reachable g → Reachable (g.set_direction d)

/-! ## Basic lemmas about the embedding -/

lemma point_eq_iff (p q : Point) : p = q ↔ p.x = q.x ∧ p.y = q.y := by
  cases p; cases q; simp

lemma snakeHits_eq_true_iff (l : List Point) (x y : Nat) :
    snakeHits l x y = true ↔ (⟨x, y⟩ : Point) ∈ l := by
  simp only [snakeHits, List.any_eq_true, Bool.and_eq_true, beq_iff_eq]
  constructor
  · rintro ⟨s, hs, hx, hy⟩
    have : s = (⟨x, y⟩ : Point) := by rw [point_eq_iff]; exact ⟨hx, hy⟩
    rwa [this] at hs
  · intro h
    exact ⟨⟨x, y⟩, h, rfl, rfl⟩

lemma snakeHits_eq_false_iff (l : List Point) (x y : Nat) :
    snakeHits l x y = false ↔ (⟨x, y⟩ : Point) ∉ l := by
  rw [← snakeHits_eq_true_iff l x y]
  cases h : snakeHits l x y <;> simp [h]

lemma placeAppleLoop_proj (n : Nat) (g : Game) :
    (placeAppleLoop n g).snake = g.snake ∧
    (placeAppleLoop n g).score = g.score ∧
    (placeAppleLoop n g).level = g.level ∧
    (placeAppleLoop n g).game_over = g.game_over ∧
    (placeAppleLoop n g).dir = g.dir ∧
    (placeAppleLoop n g).next_dir = g.next_dir ∧
    (placeAppleLoop n g).width = g.width ∧
    (placeAppleLoop n g).height = g.height ∧
    (placeAppleLoop n g).base_tick_ms = g.base_tick_ms := by
  induction n generalizing g with
  | zero => exact ⟨rfl, rfl, rfl, rfl, rfl, rfl, rfl, rfl, rfl⟩
  | succ n ih =>
    simp only [placeAppleLoop]
    split
    · exact ih _
    · exact ⟨rfl, rfl, rfl, rfl, rfl, rfl, rfl, rfl, rfl⟩

lemma placeAppleLoop_apple_free (n : Nat) (g : Game) :
    (placeAppleLoop n g).apple = ⟨1, 1⟩ ∨ (placeAppleLoop n g).apple ∉ g.snake := by
  induction n generalizing g with
  | zero => exact Or.inl rfl
  | succ n ih =>
    simp only [placeAppleLoop]
    split
    · exact ih _
    · rename_i hc
      right
      rw [Bool.not_eq_true] at hc
      exact (snakeHits_eq_false_iff _ _ _).mp hc

lemma place_apple_proj (g : Game) :
    (g.place_apple).snake = g.snake ∧
    (g.place_apple).score = g.score ∧
    (g.place_apple).level = g.level ∧
    (g.place_apple).game_over = g.game_over ∧
    (g.place_apple).dir = g.dir ∧
    (g.place_apple).next_dir = g.next_dir ∧
    (g.place_apple).width = g.width ∧
    (g.place_apple).height = g.height ∧
    (g.place_apple).base_tick_ms = g.base_tick_ms :=
  placeAppleLoop_proj 1000 g

lemma place_apple_apple_free (g : Game) :
    (g.place_apple).apple = ⟨1, 1⟩ ∨ (g.place_apple).apple ∉ g.snake :=
  placeAppleLoop_apple_free 1000 g

/-! ## Branch characterizations of `step` -/

lemma step_of_over (g : Game) (hov : g.game_over = true) : g.step = g := by
  simp [Game.step, hov]

lemma step_eq_stepMove (g : Game) (h : Point) (t : List Point)
    (hov : g.game_over = false) (hs : g.snake = h :: t) :
    g.step = stepMove g h := by
  simp [Game.step, hov, hs]

lemma stepMove_wall (g : Game) (head : Point)
    (hw : g.width ≤ (movePoint head g.next_dir).x ∨
          g.height ≤ (movePoint head g.next_dir).y) :
    stepMove g head = { g with dir := g.next_dir, game_over := true } := by
  simp only [stepMove]
  rw [if_pos hw]

lemma stepMove_self (g : Game) (head : Point)
    (hw : ¬ (g.width ≤ (movePoint head g.next_dir).x ∨
             g.height ≤ (movePoint head g.next_dir).y))
    (hc : snakeHits g.snake (movePoint head g.next_dir).x
            (movePoint head g.next_dir).y = true) :
    stepMove g head = { g with dir := g.next_dir, game_over := true } := by
  simp only [stepMove]
  rw [if_neg hw, if_pos hc]

lemma stepMove_eat (g : Game) (head : Point)
    (hw : ¬ (g.width ≤ (movePoint head g.next_dir).x ∨
             g.height ≤ (movePoint head g.next_dir).y))
    (hc : snakeHits g.snake (movePoint head g.next_dir).x
            (movePoint head g.next_dir).y = false)
    (ha : (movePoint head g.next_dir).x = g.apple.x ∧
          (movePoint head g.next_dir).y = g.apple.y) :
    stepMove g head = Game.place_apple
      { g with dir := g.next_dir,
               snake := movePoint head g.next_dir :: g.snake,
               score := g.score + 1,
               level := if (g.score + 1) % 5 = 0 then 1 + (g.score + 1) / 5
                        else g.level } := by
  simp only [stepMove]
  rw [if_neg hw, if_neg (by simp [hc]), if_pos ha]
  congr 1
  split
  · rfl
  · rfl

lemma stepMove_noeat (g : Game) (head : Point)
    (hw : ¬ (g.width ≤ (movePoint head g.next_dir).x ∨
             g.height ≤ (movePoint head g.next_dir).y))
    (hc : snakeHits g.snake (movePoint head g.next_dir).x
            (movePoint head g.next_dir).y = false)
    (ha : ¬ ((movePoint head g.next_dir).x = g.apple.x ∧
             (movePoint head g.next_dir).y = g.apple.y)) :
    stepMove g head =
      { g with dir := g.next_dir,
               snake := (movePoint head g.next_dir :: g.snake).dropLast } := by
  simp only [stepMove]
  rw [if_neg hw, if_neg (by simp [hc]), if_neg ha]

/-! ## The reachability invariant -/

/-- The session state built by `Game::new` before the initial apple placement. -/
def newPre (aw ah : Nat) (rng : Rng) : Game :=
  { snake := [⟨(max (satSub aw 2) 10) / 2, (max (satSub ah 4) 5) / 2⟩,
              ⟨satSub ((max (satSub aw 2) 10) / 2) 1, (max (satSub ah 4) 5) / 2⟩,
              ⟨satSub ((max (satSub aw 2) 10) / 2) 2, (max (satSub ah 4) 5) / 2⟩]
    dir := .Right
    next_dir := .Right
    apple := ⟨0, 0⟩
    rng := rng
    score := 0
    width := max (satSub aw 2) 10
    height := max (satSub ah 4) 5
    game_over := false
    level := 1
    base_tick_ms := 160 }

lemma new_eq (aw ah : Nat) (rng : Rng) :
    Game.new aw ah rng = (newPre aw ah rng).place_apple := rfl

lemma step_of_nil (g : Game) (hov : g.game_over = false) (hs : g.snake = []) :
    g.step = g := by
  simp [Game.step, hov, hs]

/-- Invariant maintained by every engine operation: the snake never
self-overlaps and its length is the initial length 3 plus the score. -/
def GameInv (g : Game) : Prop :=
  g.snake.Nodup ∧ g.snake.length = 3 + g.score

lemma nodup_three (m my : Nat) (hm : 5 ≤ m) :
    ([⟨m, my⟩, ⟨satSub m 1, my⟩, ⟨satSub m 2, my⟩] : List Point).Nodup := by
  simp only [List.nodup_cons, List.mem_cons, List.not_mem_nil,
    List.nodup_nil, point_eq_iff, satSub, not_or, and_true, true_and,
    not_false_iff]
  omega

lemma mid_ge_five (aw : Nat) : 5 ≤ (max (satSub aw 2) 10) / 2 := by
  have h10 : (10 : Nat) ≤ max (satSub aw 2) 10 := le_max_right _ _
  omega

lemma inv_new (aw ah : Nat) (rng : Rng) : GameInv (Game.new aw ah rng) := by
  have hp := place_apple_proj (newPre aw ah rng)
  rw [GameInv, new_eq]
  constructor
  · rw [hp.1]
    exact nodup_three ((max (satSub aw 2) 10) / 2) ((max (satSub ah 4) 5) / 2)
      (mid_ge_five aw)
  · rw [hp.1, hp.2.1]
    simp [newPre]

lemma inv_set_direction (g : Game) (d : DirectionEnum) (h : GameInv g) :
    GameInv (g.set_direction d) := by
  unfold Game.set_direction
  split
  · exact h
  · exact h

lemma inv_step (g : Game) (h : GameInv g) : GameInv g.step := by
  by_cases hov : g.game_over = true
  · rw [step_of_over g hov]; exact h
  · rw [Bool.not_eq_true] at hov
    cases hs : g.snake with
    | nil => rw [step_of_nil g hov hs]; exact h
    | cons hd t =>
      rw [step_eq_stepMove g hd t hov hs]
      set nh := movePoint hd g.next_dir with hnh
      by_cases hw : g.width ≤ nh.x ∨ g.height ≤ nh.y
      · rw [stepMove_wall g hd hw]
        exact h
      · cases hc : snakeHits g.snake nh.x nh.y with
        | true =>
          rw [stepMove_self g hd hw hc]
          exact h
        | false =>
          have hmem : (⟨nh.x, nh.y⟩ : Point) ∉ g.snake :=
            (snakeHits_eq_false_iff _ _ _).mp hc
          have hmem' : nh ∉ g.snake := by
            have hnh2 : (⟨nh.x, nh.y⟩ : Point) = nh := by
              rw [point_eq_iff]; exact ⟨rfl, rfl⟩
            rwa [hnh2] at hmem
          have hcons : (nh :: g.snake).Nodup := List.nodup_cons.mpr ⟨hmem', h.1⟩
          by_cases ha : nh.x = g.apple.x ∧ nh.y = g.apple.y
          · rw [stepMove_eat g hd hw hc ha]
            have hp := place_apple_proj
              { g with dir := g.next_dir, snake := nh :: g.snake,
                       score := g.score + 1,
                       level := if (g.score + 1) % 5 = 0 then 1 + (g.score + 1) / 5
                                else g.level }
            constructor
            · rw [show _ = nh :: g.snake from hp.1]
              exact hcons
            · rw [show _ = nh :: g.snake from hp.1,
                  show _ = g.score + 1 from hp.2.1]
              simp only [List.length_cons]
              have := h.2
              omega
          · rw [stepMove_noeat g hd hw hc ha]
            constructor
            · exact hcons.sublist (List.dropLast_sublist _)
            · show ((nh :: g.snake).dropLast).length = 3 + g.score
              rw [List.length_dropLast]
              simp only [List.length_cons]
              have hlen := h.2
              omega

/-- Every reachable session satisfies the invariant. -/
lemma reachable_inv (g : Game) (h : Reachable g) : GameInv g := by
  induction h with
  | base aw ah rng => exact inv_new aw ah rng
  | step _ ih => exact inv_step _ ih
  | set_dir d _ ih => exact inv_set_direction _ d ih

/-! ## Further helper lemmas and concrete sessions -/

lemma point_eta (p : Point) : (⟨p.x, p.y⟩ : Point) = p := by
  cases p; rfl

lemma snake_head_cons (g : Game) (h : Point) (hh : g.snake.head? = some h) :
    ∃ t, g.snake = h :: t := by
  cases hs : g.snake with
  | nil => rw [hs] at hh; exact absurd hh (by simp)
  | cons a t =>
    rw [hs] at hh
    simp only [List.head?_cons, Option.some.injEq] at hh
    exact ⟨t, by rw [hh]⟩


lemma stepMove_of_mem (g : Game) (head : Point)
    (hmem : movePoint head g.next_dir ∈ g.snake) :
    (stepMove g head).game_over = true ∧
    (stepMove g head).snake = g.snake ∧
    (stepMove g head).score = g.score ∧
    (stepMove g head).level = g.level ∧
    (stepMove g head).apple = g.apple := by
  by_cases hw : g.width ≤ (movePoint head g.next_dir).x ∨
      g.height ≤ (movePoint head g.next_dir).y
  · rw [stepMove_wall g head hw]
    exact ⟨rfl, rfl, rfl, rfl, rfl⟩
  · have hc : snakeHits g.snake (movePoint head g.next_dir).x
        (movePoint head g.next_dir).y = true := by
      rw [snakeHits_eq_true_iff, point_eta]
      exact hmem
    rw [stepMove_self g head hw hc]
    exact ⟨rfl, rfl, rfl, rfl, rfl⟩

/-- A deterministic randomness stream that always yields 0. -/
def rng0 : Rng := ⟨fun _ => 0, 0⟩

/-- A deterministic randomness stream that always yields 1. -/
def rng1 : Rng := ⟨fun _ => 1, 0⟩

/-- A live session whose head sits on the left edge with Left queued. -/
def gLeft : Game :=
  { snake := [⟨0, 2⟩, ⟨1, 2⟩, ⟨2, 2⟩]
    dir := .Left
    next_dir := .Left
    apple := ⟨5, 3⟩
    rng := rng0
    score := 0
    width := 10
    height := 5
    game_over := false
    level := 1
    base_tick_ms := 160 }

/-- A live session about to run its head into its own body at (4, 2). -/
def gSelf : Game :=
  { snake := [⟨5, 2⟩, ⟨5, 1⟩, ⟨4, 1⟩, ⟨4, 2⟩]
    dir := .Down
    next_dir := .Left
    apple := ⟨8, 3⟩
    rng := rng0
    score := 1
    width := 10
    height := 5
    game_over := false
    level := 1
    base_tick_ms := 160 }

/-- A live session whose head is about to eat the apple at (6, 2). -/
def gEat : Game :=
  { snake := [⟨5, 2⟩, ⟨4, 2⟩, ⟨3, 2⟩]
    dir := .Right
    next_dir := .Right
    apple := ⟨6, 2⟩
    rng := rng0
    score := 0
    width := 10
    height := 5
    game_over := false
    level := 1
    base_tick_ms := 160 }

/-- A live session that eats the apple while its body covers (1, 1) and the
randomness stream keeps proposing the occupied cell (1, 1): all 1000 apple
placement retries fail and the fallback apple lands on the snake. -/
def gBad : Game :=
  { snake := [⟨2, 1⟩, ⟨1, 1⟩, ⟨1, 2⟩]
    dir := .Right
    next_dir := .Right
    apple := ⟨3, 1⟩
    rng := rng1
    score := 0
    width := 10
    height := 5
    game_over := false
    level := 1
    base_tick_ms := 160 }

/-- A live session whose head is at (9, 2) on a width-10 board facing Right. -/
def gWall : Game :=
  { snake := [⟨9, 2⟩, ⟨8, 2⟩, ⟨7, 2⟩]
    dir := .Right
    next_dir := .Right
    apple := ⟨1, 1⟩
    rng := rng0
    score := 0
    width := 10
    height := 5
    game_over := false
    level := 1
    base_tick_ms := 160 }

/-- A terminated session. -/
def gOver : Game :=
  { snake := [⟨5, 2⟩, ⟨4, 2⟩, ⟨3, 2⟩]
    dir := .Right
    next_dir := .Right
    apple := ⟨1, 1⟩
    rng := rng0
    score := 2
    width := 10
    height := 5
    game_over := true
    level := 1
    base_tick_ms := 160 }

/-- A level-2 session with the default base tick. -/
def gLevel2 : Game :=
  { gOver with game_over := false, level := 2, score := 5 }

/-- A level-3 session with the default base tick. -/
def gLevel3 : Game :=
  { gOver with game_over := false, level := 3, score := 10 }

/-! ## Claim theorems -/

/-- C1: in a live session whose pending direction is Left while the head is
at x = 0 (or Up while the head is at y = 0), `step` sets `over = true` and
leaves the snake unchanged: the attempted move below 0 is an immediate game
over, and the saturating arithmetic never clamps it to a cell that the game
accepts as a normal step. -/
theorem low_edge_move_is_game_over (g : Game) (h : Point)
    (hov : g.game_over = false) (hh : g.snake.head? = some h)
    (hdir : (g.next_dir = DirectionEnum.Left ∧ h.x = 0) ∨
            (g.next_dir = DirectionEnum.Up ∧ h.y = 0)) :
    (g.step).game_over = true ∧ (g.step).snake = g.snake := by
  obtain ⟨t, hs⟩ := snake_head_cons g h hh
  rw [step_eq_stepMove g h t hov hs]
  have hnh : movePoint h g.next_dir = h := by
    rcases hdir with ⟨hd, hx⟩ | ⟨hd, hy⟩ <;>
      rw [hd, point_eq_iff] <;> simp [movePoint, satSub] <;> omega
  have hmem : movePoint h g.next_dir ∈ g.snake := by
    rw [hnh, hs]
    exact List.mem_cons_self h t
  exact ⟨(stepMove_of_mem g h hmem).1, (stepMove_of_mem g h hmem).2.1⟩

/-- C1 witness: the concrete session `gLeft` satisfies the hypotheses and
stepping it ends the game. -/
theorem low_edge_move_is_game_over_witness :
    gLeft.game_over = false ∧
    gLeft.snake.head? = some ⟨0, 2⟩ ∧
    gLeft.next_dir = DirectionEnum.Left ∧
    (Game.step gLeft).game_over = true ∧ (Game.step gLeft).snake = gLeft.snake :=
  ⟨rfl, rfl, rfl,
    (low_edge_move_is_game_over gLeft ⟨0, 2⟩ rfl rfl (Or.inl ⟨rfl, rfl⟩)).1,
    (low_edge_move_is_game_over gLeft ⟨0, 2⟩ rfl rfl (Or.inl ⟨rfl, rfl⟩)).2⟩

/-- C3: in a live session, if the head position computed by `step` coincides
with any current snake segment (the current tail cell included, since the
collision check runs before any tail removal), `step` sets `over = true` and
returns without inserting the new head. -/
theorem self_collision_is_game_over (g : Game) (h : Point)
    (hov : g.game_over = false) (hh : g.snake.head? = some h)
    (hmem : movePoint h g.next_dir ∈ g.snake) :
    (g.step).game_over = true ∧ (g.step).snake = g.snake := by
  obtain ⟨t, hs⟩ := snake_head_cons g h hh
  rw [step_eq_stepMove g h t hov hs]
  exact ⟨(stepMove_of_mem g h hmem).1, (stepMove_of_mem g h hmem).2.1⟩

/-- C3 witness: the concrete session `gSelf` is about to move its head onto
its own body at (4, 2), including the current tail cell, and stepping it
ends the game without changing the snake. -/
theorem self_collision_is_game_over_witness :
    gSelf.game_over = false ∧
    gSelf.snake.head? = some ⟨5, 2⟩ ∧
    movePoint ⟨5, 2⟩ gSelf.next_dir ∈ gSelf.snake ∧
    gSelf.snake.getLast? = some (movePoint ⟨5, 2⟩ gSelf.next_dir) ∧
    (Game.step gSelf).game_over = true ∧ (Game.step gSelf).snake = gSelf.snake := by
  refine ⟨rfl, rfl, by decide, by decide, ?_, ?_⟩
  · exact (self_collision_is_game_over gSelf ⟨5, 2⟩ rfl rfl (by decide)).1
  · exact (self_collision_is_game_over gSelf ⟨5, 2⟩ rfl rfl (by decide)).2

/-- C6: in a live session whose computed new head has x ≥ width or
y ≥ height, `step` sets `over = true` and leaves the snake, score, level
and apple unchanged. -/
theorem wall_collision_is_game_over (g : Game) (h : Point)
    (hov : g.game_over = false) (hh : g.snake.head? = some h)
    (hw : g.width ≤ (movePoint h g.next_dir).x ∨
          g.height ≤ (movePoint h g.next_dir).y) :
    (g.step).game_over = true ∧
    (g.step).snake = g.snake ∧
    (g.step).score = g.score ∧
    (g.step).level = g.level ∧
    (g.step).apple = g.apple := by
  obtain ⟨t, hs⟩ := snake_head_cons g h hh
  rw [step_eq_stepMove g h t hov hs, stepMove_wall g h hw]
  exact ⟨rfl, rfl, rfl, rfl, rfl⟩

/-- C6 witness: the concrete session `gWall` (head at (9, 2), width 10,
facing Right) satisfies the hypotheses; stepping it ends the game with the
snake, score, level and apple unchanged. -/
theorem wall_collision_is_game_over_witness :
    gWall.game_over = false ∧
    gWall.snake.head? = some ⟨9, 2⟩ ∧
    gWall.width ≤ (movePoint ⟨9, 2⟩ gWall.next_dir).x ∧
    (Game.step gWall).game_over = true ∧
    (Game.step gWall).snake = gWall.snake ∧
    (Game.step gWall).score = gWall.score ∧
    (Game.step gWall).level = gWall.level ∧
    (Game.step gWall).apple = gWall.apple := by
  have hc := wall_collision_is_game_over gWall ⟨9, 2⟩ rfl rfl (Or.inl (by decide))
  exact ⟨rfl, rfl, by decide, hc.1, hc.2.1, hc.2.2.1, hc.2.2.2.1, hc.2.2.2.2⟩

/-- C7: on a session with `over = true`, `step` is a no-op: any number of
repeated `step` calls leaves the whole session state unchanged. -/
theorem step_noop_after_game_over (g : Game) (hov : g.game_over = true) :
    ∀ n : Nat, Game.step^[n] g = g := by
  intro n
  induction n with
  | zero => rfl
  | succ n ih => rw [Function.iterate_succ_apply, step_of_over g hov, ih]

/-- C7 witness: the terminated concrete session `gOver` is unchanged by
three `step` calls. -/
theorem step_noop_after_game_over_witness :
    gOver.game_over = true ∧ Game.step^[3] gOver = gOver :=
  ⟨rfl, step_noop_after_game_over gOver rfl 3⟩

/-- C5: `set_direction` leaves the pending direction unchanged exactly when
the requested direction is the opposite of the current committed direction
(it never consults the pending one), otherwise it records the request; the
committed direction itself is untouched, and the operation is total, so no
error is ever raised.  Quantifying over all sessions and requests covers
all four opposite pairs. -/
theorem set_direction_rejects_reverse (g : Game) (d : DirectionEnum) :
    (g.set_direction d).next_dir =
      (if d = g.dir.opposite then g.next_dir else d) ∧
    (g.set_direction d).dir = g.dir ∧
    (g.set_direction d).snake = g.snake ∧
    (g.set_direction d).score = g.score ∧
    (g.set_direction d).game_over = g.game_over := by
  unfold Game.set_direction
  cases hgd : g.dir <;> cases d <;>
    simp [isReverse, DirectionEnum.opposite, hgd]

/-- C8: `tick_duration` equals base − (level − 1) × 10 floored at 40 (with
the base always 160); it is never below the floor, strictly decreases by one
level while above the floor, and stays at 40 once the floor is reached. -/
theorem tick_duration_formula (g g2 : Game)
    (hb : g.base_tick_ms = 160) (hb2 : g2.base_tick_ms = 160)
    (hl : 1 ≤ g.level) (hl2 : g2.level = g.level + 1) :
    g.tick_duration = max (g.base_tick_ms - (g.level - 1) * 10) 40 ∧
    40 ≤ g.tick_duration ∧
    (40 < g.tick_duration → g2.tick_duration < g.tick_duration) ∧
    (g.tick_duration = 40 → g2.tick_duration = 40) := by
  simp only [Game.tick_duration, hb, hb2, hl2]
  refine ⟨trivial, le_max_right _ _, ?_, ?_⟩ <;>
    · rcases Nat.le_total (160 - (g.level - 1) * 10) 40 with hcase | hcase <;>
      rcases Nat.le_total (160 - (g.level + 1 - 1) * 10) 40 with hcase2 | hcase2 <;>
      simp [Nat.max_eq_right, Nat.max_eq_left, hcase, hcase2] <;>
      omega

/-- C8 witness: concrete sessions at levels 2 and 3 with base 160. -/
theorem tick_duration_formula_witness :
    gLevel2.base_tick_ms = 160 ∧ gLevel3.base_tick_ms = 160 ∧
    1 ≤ gLevel2.level ∧ gLevel3.level = gLevel2.level + 1 ∧
    (gLevel2.tick_duration = max (gLevel2.base_tick_ms - (gLevel2.level - 1) * 10) 40 ∧
     40 ≤ gLevel2.tick_duration ∧
     (40 < gLevel2.tick_duration → gLevel3.tick_duration < gLevel2.tick_duration) ∧
     (gLevel2.tick_duration = 40 → gLevel3.tick_duration = 40)) :=
  ⟨rfl, rfl, by decide, rfl,
    tick_duration_formula gLevel2 gLevel3 rfl rfl (by decide) rfl⟩

/-- C2: in every session reachable from `Game::new` by `set_direction` and
`step` calls, the snake segment positions are pairwise distinct whenever
`over = false`. -/
theorem reachable_snake_nodup (g : Game) (hr : Reachable g)
    (_hov : g.game_over = false) : g.snake.Nodup :=
  (reachable_inv g hr).1

/-- C2 witness: a freshly created concrete session is reachable, live, and
its snake has pairwise distinct segments. -/
theorem reachable_snake_nodup_witness :
    Reachable (Game.new 12 9 rng0) ∧
    (Game.new 12 9 rng0).game_over = false ∧
    (Game.new 12 9 rng0).snake.Nodup :=
  ⟨Reachable.base 12 9 rng0, rfl,
    reachable_snake_nodup (Game.new 12 9 rng0) (Reachable.base 12 9 rng0) rfl⟩

/-- C10: in every session reachable from `Game::new` by `set_direction` and
`step` calls, the snake length equals 3 plus the score: the length is fully
determined by the number of apples eaten. -/
theorem reachable_length_eq_score (g : Game) (hr : Reachable g) :
    g.snake.length = 3 + g.score :=
  (reachable_inv g hr).2

/-- C10 witness: a freshly created concrete session is reachable and its
snake length is 3 plus its score. -/
theorem reachable_length_eq_score_witness :
    Reachable (Game.new 20 11 rng0) ∧
    (Game.new 20 11 rng0).snake.length = 3 + (Game.new 20 11 rng0).score :=
  ⟨Reachable.base 20 11 rng0,
    reachable_length_eq_score (Game.new 20 11 rng0) (Reachable.base 20 11 rng0)⟩

/-- C4 (amended): in a live session whose computed new head coincides with
the apple and collides with nothing, `step` grows the snake by exactly one
segment, increments the score by exactly one, recomputes the level as
1 + score/5 exactly when the new score is a multiple of 5 (leaving it
unchanged otherwise), and relocates the apple to a cell not occupied by any
snake segment unless all 1000 random placement retries hit the snake, in
which case the apple falls back to the fixed cell (1, 1), which may be
occupied. -/
theorem eat_apple_grows_and_scores (g : Game) (h : Point)
    (hov : g.game_over = false) (hh : g.snake.head? = some h)
    (hw : ¬ (g.width ≤ (movePoint h g.next_dir).x ∨
             g.height ≤ (movePoint h g.next_dir).y))
    (hc : movePoint h g.next_dir ∉ g.snake)
    (ha : movePoint h g.next_dir = g.apple) :
    (g.step).snake.length = g.snake.length + 1 ∧
    (g.step).score = g.score + 1 ∧
    ((g.score + 1) % 5 = 0 → (g.step).level = 1 + (g.score + 1) / 5) ∧
    ((g.score + 1) % 5 ≠ 0 → (g.step).level = g.level) ∧
    ((g.step).apple ∉ (g.step).snake ∨ (g.step).apple = ⟨1, 1⟩) := by
  obtain ⟨t, hs⟩ := snake_head_cons g h hh
  rw [step_eq_stepMove g h t hov hs]
  have hcb : snakeHits g.snake (movePoint h g.next_dir).x
      (movePoint h g.next_dir).y = false := by
    rw [snakeHits_eq_false_iff, point_eta]
    exact hc
  have hxy : (movePoint h g.next_dir).x = g.apple.x ∧
      (movePoint h g.next_dir).y = g.apple.y := by
    rw [ha]; exact ⟨rfl, rfl⟩
  rw [stepMove_eat g h hw hcb hxy]
  have hp := place_apple_proj
    { g with dir := g.next_dir, snake := movePoint h g.next_dir :: g.snake,
             score := g.score + 1,
             level := if (g.score + 1) % 5 = 0 then 1 + (g.score + 1) / 5
                      else g.level }
  have hap := place_apple_apple_free
    { g with dir := g.next_dir, snake := movePoint h g.next_dir :: g.snake,
             score := g.score + 1,
             level := if (g.score + 1) % 5 = 0 then 1 + (g.score + 1) / 5
                      else g.level }
  refine ⟨?_, ?_, ?_, ?_, ?_⟩
  · rw [show _ = movePoint h g.next_dir :: g.snake from hp.1]
    simp
  · exact hp.2.1
  · intro h5
    rw [hp.2.2.1]
    show (if (g.score + 1) % 5 = 0 then 1 + (g.score + 1) / 5 else g.level)
      = 1 + (g.score + 1) / 5
    rw [if_pos h5]
  · intro h5
    rw [hp.2.2.1]
    show (if (g.score + 1) % 5 = 0 then 1 + (g.score + 1) / 5 else g.level)
      = g.level
    rw [if_neg h5]
  · rcases hap with h1 | h1
    · right; exact h1
    · left
      rw [show _ = movePoint h g.next_dir :: g.snake from hp.1]
      exact h1

/-- C4 counterexample: in the live concrete session `gBad` the new head
(3, 1) coincides with the apple, no collision occurs, yet after `step` the
apple sits on a snake segment: every one of the 1000 placement retries
proposes the occupied cell (1, 1) and the fallback lands on the snake, so
the claim that the relocated apple never occupies a snake cell is false. -/
theorem eat_apple_relocation_can_land_on_snake :
    gBad.game_over = false ∧
    gBad.snake.head? = some ⟨2, 1⟩ ∧
    ¬ (gBad.width ≤ (movePoint ⟨2, 1⟩ gBad.next_dir).x ∨
       gBad.height ≤ (movePoint ⟨2, 1⟩ gBad.next_dir).y) ∧
    movePoint ⟨2, 1⟩ gBad.next_dir ∉ gBad.snake ∧
    movePoint ⟨2, 1⟩ gBad.next_dir = gBad.apple ∧
    (Game.step gBad).apple ∈ (Game.step gBad).snake := by
  set_option maxRecDepth 40000 in
  refine ⟨rfl, rfl, by decide, by decide, by decide, by decide⟩

/-- C4 witness: the concrete session `gEat` eats the apple at (6, 2); its
snake grows by one, its score by one, the level update fires exactly on
multiples of 5, and the apple is relocated off the snake. -/
theorem eat_apple_grows_and_scores_witness :
    gEat.game_over = false ∧
    gEat.snake.head? = some ⟨5, 2⟩ ∧
    ¬ (gEat.width ≤ (movePoint ⟨5, 2⟩ gEat.next_dir).x ∨
       gEat.height ≤ (movePoint ⟨5, 2⟩ gEat.next_dir).y) ∧
    movePoint ⟨5, 2⟩ gEat.next_dir ∉ gEat.snake ∧
    movePoint ⟨5, 2⟩ gEat.next_dir = gEat.apple ∧
    ((Game.step gEat).snake.length = gEat.snake.length + 1 ∧
     (Game.step gEat).score = gEat.score + 1 ∧
     ((gEat.score + 1) % 5 = 0 → (Game.step gEat).level = 1 + (gEat.score + 1) / 5) ∧
     ((gEat.score + 1) % 5 ≠ 0 → (Game.step gEat).level = gEat.level) ∧
     ((Game.step gEat).apple ∉ (Game.step gEat).snake ∨
      (Game.step gEat).apple = ⟨1, 1⟩)) :=
  ⟨rfl, rfl, by decide, by decide, by decide,
    eat_apple_grows_and_scores gEat ⟨5, 2⟩ rfl rfl (by decide) (by decide)
      (by decide)⟩

lemma snake3_bounds (W H : Nat) (hW : 10 ≤ W) (hH : 5 ≤ H) :
    ∀ p ∈ ([⟨W / 2, H / 2⟩, ⟨satSub (W / 2) 1, H / 2⟩,
            ⟨satSub (W / 2) 2, H / 2⟩] : List Point),
      p.x < W ∧ p.y < H := by
  intro p hmem
  simp only [List.mem_cons, List.not_mem_nil, or_false] at hmem
  rcases hmem with rfl | rfl | rfl <;> simp only [satSub] <;>
    exact ⟨by omega, by omega⟩

lemma snake3_collinear (W H : Nat) :
    ∀ p ∈ ([⟨W / 2, H / 2⟩, ⟨satSub (W / 2) 1, H / 2⟩,
            ⟨satSub (W / 2) 2, H / 2⟩] : List Point),
      p.y = H / 2 := by
  intro p hmem
  simp only [List.mem_cons, List.not_mem_nil, or_false] at hmem
  rcases hmem with rfl | rfl | rfl <;> rfl

/-- C9: for every requested area, `Game::new` produces a session whose
dimensions meet the minimums (width ≥ 10, height ≥ 5, each obtained by
clamping the border-adjusted request), whose snake is exactly three
collinear points centered on the board and lying inside
[0, width) × [0, height), facing Right with a Right pending direction,
with score 0, level 1, `over = false`, and one apple placed by the
apple-placement algorithm (hence off the snake unless every retry failed
and the fallback cell (1, 1) was used). -/
theorem new_session_shape (aw ah : Nat) (rng : Rng) :
    10 ≤ (Game.new aw ah rng).width ∧
    5 ≤ (Game.new aw ah rng).height ∧
    (Game.new aw ah rng).width = max (satSub aw 2) 10 ∧
    (Game.new aw ah rng).height = max (satSub ah 4) 5 ∧
    (Game.new aw ah rng).snake =
      [⟨(Game.new aw ah rng).width / 2, (Game.new aw ah rng).height / 2⟩,
       ⟨satSub ((Game.new aw ah rng).width / 2) 1, (Game.new aw ah rng).height / 2⟩,
       ⟨satSub ((Game.new aw ah rng).width / 2) 2, (Game.new aw ah rng).height / 2⟩] ∧
    (∀ p ∈ (Game.new aw ah rng).snake,
       p.x < (Game.new aw ah rng).width ∧ p.y < (Game.new aw ah rng).height) ∧
    (∀ p ∈ (Game.new aw ah rng).snake, p.y = (Game.new aw ah rng).height / 2) ∧
    (Game.new aw ah rng).dir = DirectionEnum.Right ∧
    (Game.new aw ah rng).next_dir = DirectionEnum.Right ∧
    (Game.new aw ah rng).score = 0 ∧
    (Game.new aw ah rng).level = 1 ∧
    (Game.new aw ah rng).game_over = false ∧
    ((Game.new aw ah rng).apple ∉ (Game.new aw ah rng).snake ∨
     (Game.new aw ah rng).apple = ⟨1, 1⟩) := by
  have hp := place_apple_proj (newPre aw ah rng)
  have hap := place_apple_apple_free (newPre aw ah rng)
  rw [new_eq]
  have hsnake := hp.1
  have hwidth := hp.2.2.2.2.2.2.1
  have hheight := hp.2.2.2.2.2.2.2.1
  refine ⟨?_, ?_, ?_, ?_, ?_, ?_, ?_, ?_, ?_, ?_, ?_, ?_, ?_⟩
  · rw [hwidth]; exact le_max_right _ _
  · rw [hheight]; exact le_max_right _ _
  · exact hwidth
  · exact hheight
  · rw [hsnake, hwidth, hheight]; rfl
  · rw [hsnake, hwidth, hheight]
    exact snake3_bounds _ _ (le_max_right _ _) (le_max_right _ _)
  · rw [hsnake, hheight]
    exact snake3_collinear _ _
  · exact hp.2.2.2.2.1
  · exact hp.2.2.2.2.2.1
  · exact hp.2.1
  · exact hp.2.2.1
  · exact hp.2.2.2.1
  · rcases hap with h1 | h1
    · right; exact h1
    · left; rw [hsnake]; exact h1
